import Mathlib

/-!
Verification of the remote-to-local content synchronization engine of the
tk-dashboard-2 repository (io-apps).  The Lean definitions below are a shallow
embedding of the Python source:

* `hset` / `hdel` / `hkeys` / `alookup` model the Redis hash primitives used
  through `CustomRedis` (set hash field, delete hash field, list hash fields,
  read hash field); a hash is an association list.
* `RedisState` is the pair of co-located hashes of a `RedisFile`
  (`infos_key` and `raw_key` in `lib/dashboard_io.py`).  An infos value is
  `Option FileInfos`: `none` models a stored record whose JSON does not parse
  or fails the basic validation of `get_file_infos_as_dict`.
* `RCmd` / `applyPipe` / `execPipe` model a redis pipeline: the commands are
  buffered and applied as one atomic batch by `execute` (or nothing is applied
  at all when the store operation fails).
* `addFile`, `deleteFile`, `getFileInfos`, `removeOrphan`, `syncWithSftp`
  mirror the methods of `RedisFile`; `reconcile` is repair-then-sync, the
  sequencing used by the import apps (`RedisFile(check=True)` runs
  `remove_orphan` before `sync_with_sftp`).
* The SHA-256 function and the PNG thumbnail conversion are external to the
  engine's logic and enter as parameters `H` and `thumb`.
* `fetch` models `SFTP_Indexed.get_file_as_bytes`: `Except.error` is a raised
  exception (e.g. `FileNotFoundError`), `Except.ok b` a returned byte string
  (possibly empty).
-/

/-- Byte strings, as lists of byte values. -/
abbrev Bytes := List Nat

/-- `FileInfos` dataclass of `lib/dashboard_io.py` / `lib/sftp.py`:
the parsed content of one metadata record. -/
structure FileInfos where
  sha256 : String
  size : Nat
deriving DecidableEq

/-- Redis `HSET key field value`: set one field of a hash. -/
def hset {V : Type} (m : List (String × V)) (k : String) (v : V) :
    List (String × V) :=
  (k, v) :: m.filter (fun p => decide (p.1 ≠ k))

/-- Redis `HDEL key field`: delete one field of a hash. -/
def hdel {V : Type} (m : List (String × V)) (k : String) :
    List (String × V) :=
  m.filter (fun p => decide (p.1 ≠ k))

/-- Redis `HKEYS key`: the fields of a hash. -/
def hkeys {V : Type} (m : List (String × V)) : List String :=
  m.map Prod.fst

/-- Read one field of a hash (as `HGET`). -/
def alookup {V : Type} (m : List (String × V)) (k : String) : Option V :=
  (m.find? (fun p => decide (p.1 = k))).map Prod.snd

/-- The two co-located hashes of a `RedisFile`: the metadata map under
`infos_key` (a `none` value is a malformed stored record) and the raw-bytes
map under `raw_key`. -/
structure RedisState where
  infos : List (String × Option FileInfos)
  raw : List (String × Bytes)
deriving DecidableEq

/-- One buffered redis command of a pipeline built by `add_file` or
`delete_file`. -/
inductive RCmd where
  | hsetInfo (k : String) (v : Option FileInfos)
  | hsetRaw (k : String) (v : Bytes)
  | hdelInfo (k : String)
  | hdelRaw (k : String)
deriving DecidableEq

/-- Effect of one buffered command on the two hashes. -/
def applyCmd (st : RedisState) : RCmd → RedisState
  | RCmd.hsetInfo k v => ⟨hset st.infos k v, st.raw⟩
  | RCmd.hsetRaw k v => ⟨st.infos, hset st.raw k v⟩
  | RCmd.hdelInfo k => ⟨hdel st.infos k, st.raw⟩
  | RCmd.hdelRaw k => ⟨st.infos, hdel st.raw k⟩

/-- Apply a whole pipeline in order. -/
def applyPipe (st : RedisState) (cmds : List RCmd) : RedisState :=
  cmds.foldl applyCmd st

/-- `pipe.execute()`: the batch is atomic — it is applied entirely when the
store operation succeeds (`ok = true`) and not at all when it fails. -/
def execPipe (ok : Bool) (st : RedisState) (cmds : List RCmd) : RedisState :=
  if ok then applyPipe st cmds else st

/-- The pipeline built by `RedisFile.add_file`: the SHA-256 and the size are
computed from the downloaded bytes `raw`, then `raw` is (optionally) replaced
by its PNG thumbnail, and both hash fields are set in one batch. -/
def addFileCmds (H : Bytes → String) (thumb : String → Bytes → Bytes)
    (filename : String) (raw : Bytes) (asPngThumb : Bool) : List RCmd :=
  let sha := H raw
  let jsInfos : FileInfos := ⟨sha, raw.length⟩
  let rawStored := if asPngThumb then thumb filename raw else raw
  [RCmd.hsetInfo filename (some jsInfos), RCmd.hsetRaw filename rawStored]

/-- The pipeline built by `RedisFile.delete_file`. -/
def deleteFileCmds (filename : String) : List RCmd :=
  [RCmd.hdelInfo filename, RCmd.hdelRaw filename]

/-- `RedisFile.add_file` on the success path (store reachable). -/
def addFile (H : Bytes → String) (thumb : String → Bytes → Bytes)
    (st : RedisState) (filename : String) (raw : Bytes) (asPngThumb : Bool) :
    RedisState :=
  applyPipe st (addFileCmds H thumb filename raw asPngThumb)

/-- `RedisFile.delete_file` on the success path (store reachable). -/
def deleteFile (st : RedisState) (filename : String) : RedisState :=
  applyPipe st (deleteFileCmds filename)

/-- `RedisFile.get_file_infos_as_dict`: decode every metadata record, keeping
only the ones that parse and pass the basic validation. -/
def getFileInfos (infos : List (String × Option FileInfos)) :
    List (String × FileInfos) :=
  infos.filterMap (fun p => p.2.map (fun fi => (p.1, fi)))

/-- Delete a list of fields from a hash, one `HDEL` per field. -/
def hdelAll {V : Type} (m : List (String × V)) (ks : List String) :
    List (String × V) :=
  ks.foldl (fun acc k => hdel acc k) m

/-- `RedisFile.remove_orphan`: delete every field of the infos hash that is
missing from the raw hash, then every field of the raw hash missing from the
(updated) infos field set. -/
def removeOrphan (st : RedisState) : RedisState :=
  let rawKeysSet := hkeys st.raw
  let redisInfoSet := hkeys st.infos
  let infosOnly := redisInfoSet.filter (fun k => decide (k ∉ rawKeysSet))
  let infos2 := hdelAll st.infos infosOnly
  let redisInfoSet2 := redisInfoSet.filter (fun k => decide (k ∈ rawKeysSet))
  let rawOnly := rawKeysSet.filter (fun k => decide (k ∉ redisInfoSet2))
  let raw2 := hdelAll st.raw rawOnly
  ⟨infos2, raw2⟩

/-- `to_remove` of `sync_with_sftp`: the files existing only locally. -/
def toRemoveList (localD : List (String × FileInfos))
    (toSyncD : List (String × String)) : List String :=
  (localD.map Prod.fst).filter (fun f => decide (f ∉ hkeys toSyncD))

/-- The names of files present on both sides whose locally stored SHA-256
differs from the one in the remote index (`to_sync_d`). -/
def mismatchList (localD : List (String × FileInfos))
    (toSyncD : List (String × String)) : List String :=
  ((localD.map Prod.fst).filter (fun f => decide (f ∈ hkeys toSyncD))).filter
    (fun f => decide ((alookup localD f).map FileInfos.sha256 ≠ alookup toSyncD f))

/-- `to_download_set` of `sync_with_sftp`: files existing only on the remote
side, plus the SHA-256 mismatches. -/
def toDownloadList (localD : List (String × FileInfos))
    (toSyncD : List (String × String)) : List String :=
  (hkeys toSyncD).filter (fun f => decide (f ∉ localD.map Prod.fst))
    ++ mismatchList localD toSyncD

/-- The download loop of `sync_with_sftp`.  For each name, the file is
fetched; a raised fetch exception propagates (third component `true`: the
loop is aborted with the state reached so far); an empty byte string is
treated as a failed download and skipped; otherwise `add_file` stores the
file.  The second component counts the `add_file` calls. -/
def downloadLoop (H : Bytes → String) (thumb : String → Bytes → Bytes)
    (fetch : String → Except Unit Bytes) (asPngThumb : Bool) :
    RedisState → List String → RedisState × Nat × Bool
  | st, [] => (st, 0, false)
  | st, f :: rest =>
    match fetch f with
    | Except.error _ => (st, 0, true)
    | Except.ok rawData =>
      if rawData = [] then downloadLoop H thumb fetch asPngThumb st rest
      else
        let st1 := addFile H thumb st f rawData asPngThumb
        let out := downloadLoop H thumb fetch asPngThumb st1 rest
        (out.1, out.2.1 + 1, out.2.2)

/-- Observable outcome of one `sync_with_sftp` call: the final pair of hashes,
the number of `delete_file` calls, the number of `add_file` calls, and whether
the call was aborted by a raised fetch exception. -/
structure SyncResult where
  st : RedisState
  deleted : Nat
  fetched : Nat
  aborted : Bool
deriving DecidableEq

/-- `RedisFile.sync_with_sftp`: read the local metadata, delete the files
existing only locally, then download the files existing only remotely or
whose SHA-256 mismatches. -/
def syncWithSftp (H : Bytes → String) (thumb : String → Bytes → Bytes)
    (fetch : String → Except Unit Bytes) (st : RedisState)
    (toSyncD : List (String × String)) (toPngThumb : Bool) : SyncResult :=
  let localD := getFileInfos st.infos
  let toRemove := toRemoveList localD toSyncD
  let st1 := toRemove.foldl deleteFile st
  let toDownload := toDownloadList localD toSyncD
  let out := downloadLoop H thumb fetch toPngThumb st1 toDownload
  ⟨out.1, toRemove.length, out.2.1, out.2.2⟩

/-- One engine cycle as the import apps run it: `remove_orphan` (at
`RedisFile` construction with `check=True`) followed by `sync_with_sftp`. -/
def reconcile (H : Bytes → String) (thumb : String → Bytes → Bytes)
    (fetch : String → Except Unit Bytes) (st : RedisState)
    (toSyncD : List (String × String)) (toPngThumb : Bool) : SyncResult :=
  syncWithSftp H thumb fetch (removeOrphan st) toSyncD toPngThumb

/-- `datetime(year=2000, month=1, day=1, tzinfo=timezone.utc)` as a Unix
timestamp: the initial watermark of `TrySync`, far in the past. -/
def initLastSyncDt : Int := 946684800

/-- State of a `TrySync` instance: the last-synchronized index modification
time of one watched SFTP directory. -/
structure TrySyncState where
  lastSyncDt : Int
deriving DecidableEq

/-- A freshly constructed `TrySync`. -/
def trySyncInit : TrySyncState := ⟨initLastSyncDt⟩

/-- Observable outcome of one `TrySync.run` call: the state after the call,
whether the sync function was invoked, and whether the call ended in a raised
exception (propagated out of `run`). -/
structure TrySyncOut where
  state : TrySyncState
  ran : Bool
  raised : Bool
deriving DecidableEq

/-- `TrySync.run`: invoke the sync function iff the index modification time
is strictly greater than the stored watermark, and advance the watermark only
after the sync function has returned (an exception raised by the sync
function propagates and skips the watermark assignment). -/
def trySyncRun (st : TrySyncState) (idxMtime : Int)
    (syncResult : Except Unit Unit) : TrySyncOut :=
  if st.lastSyncDt < idxMtime then
    match syncResult with
    | Except.ok _ => ⟨⟨idxMtime⟩, true, false⟩
    | Except.error _ => ⟨st, true, true⟩
  else ⟨st, false, false⟩

/-- Model of a PIL image: its pixel dimensions and the list of text strings
drawn on it. -/
structure PilImage where
  width : Nat
  height : Nat
  texts : List String
deriving DecidableEq

/-- The placeholder image built at the top of `to_png_thumbnail`: a new image
of exactly the target size carrying the literal error text. -/
def placeholderImage (filename : String) (w h : Nat) : PilImage :=
  ⟨w, h, ["loading error (src: \"" ++ filename ++ "\")"]⟩

/-- `PIL.Image.thumbnail`: resize in place to fit within the target box while
preserving the aspect ratio, never upscaling (an image already within the box
is left untouched). -/
def thumbnailFit (img : PilImage) (w h : Nat) : PilImage :=
  if img.width ≤ w ∧ img.height ≤ h then img
  else
    let w2 := min w (if img.height = 0 then w else img.width * h / img.height)
    let h2 := min h (if img.width = 0 then h else img.height * w / img.width)
    ⟨w2, h2, img.texts⟩

/-- Python `str.lower()`: lowercase every character. -/
def lowerStr (s : String) : String :=
  String.mk (s.data.map Char.toLower)

/-- Python `str.endswith(pat)`: suffix test. -/
def endsWithStr (s pat : String) : Bool :=
  pat.data.isSuffixOf s.data

/-- `to_png_thumbnail` of `lib/dashboard_io.py`.  The raster decoder
(`PIL.Image.open`), the first-page PDF renderer (`pdf2image`, restricted to
`first_page=1, last_page=1`) and the PNG encoder (`img.save`) are external
library calls and enter as parameters; a decoder returning `Except.error`
models a raised decode exception, which the `try`/`except` block replaces by
the already-prepared placeholder image. -/
def toPngThumbnail (imgDecode pdfFirstPage : Bytes → Except Unit PilImage)
    (pngEncode : PilImage → Bytes) (filename : String) (rawData : Bytes)
    (w h : Nat) : Bytes :=
  let base := placeholderImage filename w h
  let imgToRedis :=
    if endsWithStr (lowerStr filename) ".png" ∨ endsWithStr (lowerStr filename) ".jpg"
        ∨ endsWithStr (lowerStr filename) ".jpeg" then
      match imgDecode rawData with
      | Except.ok img => img
      | Except.error _ => base
    else if endsWithStr (lowerStr filename) ".pdf" then
      match pdfFirstPage rawData with
      | Except.ok img => img
      | Except.error _ => base
    else base
  pngEncode (thumbnailFit imgToRedis w h)

/-- Is `c` matched by the regex character class `[a-zA-Z0-9]`? -/
def isAlnumAscii (c : Char) : Bool :=
  (decide ('a' ≤ c) && decide (c ≤ 'z'))
    || (decide ('A' ≤ c) && decide (c ≤ 'Z'))
    || (decide ('0' ≤ c) && decide (c ≤ '9'))

/-- Longest prefix of `[a-zA-Z0-9]` characters. -/
def alnumRun : List Char → List Char
  | [] => []
  | c :: cs => if isAlnumAscii c then c :: alnumRun cs else []

/-- Match of the regex `_@([a-zA-Z0-9]{1,16})_` anchored at the head of the
list: the greedy bounded group backtracks until the closing underscore, which
(the run being maximal) succeeds exactly when the full alphanumeric run has
length 1 to 16 and is followed by an underscore. -/
def siteTagAt : List Char → Option (List Char)
  | '_' :: '@' :: rest =>
    let run := alnumRun rest
    if 1 ≤ run.length ∧ run.length ≤ 16 ∧ rest.getD run.length ' ' = '_'
    then some run else none
  | _ => none

/-- `re.search` of the pattern `_@([a-zA-Z0-9]{1,16})_`: leftmost match. -/
def siteTagSearch : List Char → Option (List Char)
  | [] => none
  | c :: cs =>
    match siteTagAt (c :: cs) with
    | some run => some run
    | none => siteTagSearch cs

/-- The site tag carried by a filename, lowercased (`match.group(1).lower()`
in `_get_remote_sftp_files`), or `none` when the filename carries no tag. -/
def siteTagOf (filename : String) : Option String :=
  (siteTagSearch filename.data).map (fun cs => String.mk (cs.map Char.toLower))

/-- `_get_remote_sftp_files` of `loos-import-io-app.py`: keep an index entry
iff its site tag (when present) equals `siteId`, its actual size (from the
SFTP attributes; an attributes failure skips the entry) is strictly below
`maxSize`, and its name does not end in `.txt`. -/
def getRemoteSftpFiles (attrs : String → Except Unit Nat) (maxSize : Nat)
    (siteId : String) (sftpIndex : List (String × String)) :
    List (String × FileInfos) :=
  sftpIndex.filterMap (fun p =>
    let siteIdOk : Bool :=
      match siteTagOf p.1 with
      | none => true
      | some tag => decide (tag = siteId)
    match attrs p.1 with
    | Except.error _ => none
    | Except.ok size =>
      let fileSizeOk : Bool := decide (size < maxSize)
      let fileExtOk : Bool := ! endsWithStr (lowerStr p.1) ".txt"
      if siteIdOk && fileSizeOk && fileExtOk
      then some (p.1, ⟨p.2, size⟩) else none)

/-- Remote file set as the `to_sync_d` manifest handed to `sync_with_sftp`:
filename paired with the remote SHA-256. -/
def remoteAsManifest (l : List (String × FileInfos)) :
    List (String × String) :=
  l.map (fun p => (p.1, p.2.sha256))

theorem mem_hkeys {V : Type} {m : List (String × V)} {k : String} :
    k ∈ hkeys m ↔ ∃ v, (k, v) ∈ m := by
  constructor
  · intro h
    rcases List.mem_map.mp h with ⟨p, hp, hfst⟩
    exact ⟨p.2, by simpa [← hfst] using hp⟩
  · rintro ⟨v, hv⟩
    exact List.mem_map.mpr ⟨(k, v), hv, rfl⟩

theorem alookup_cons {V : Type} (p : String × V) (m : List (String × V))
    (g : String) :
    alookup (p :: m) g = if p.1 = g then some p.2 else alookup m g := by
  by_cases h : p.1 = g
  · simp [alookup, List.find?_cons_of_pos, h]
  · simp [alookup, List.find?_cons_of_neg, h]

theorem alookup_filter_ne {V : Type} (m : List (String × V)) (k g : String)
    (h : g ≠ k) :
    alookup (m.filter (fun p => decide (p.1 ≠ k))) g = alookup m g := by
  induction m with
  | nil => rfl
  | cons p rest ih =>
    by_cases hpk : p.1 = k
    · have hpg : ¬ p.1 = g := fun hc => h (hc.symm.trans hpk)
      rw [List.filter_cons_of_neg (by simpa using hpk), alookup_cons, if_neg hpg]
      exact ih
    · rw [List.filter_cons_of_pos (by simpa using hpk), alookup_cons,
        alookup_cons]
      by_cases hpg : p.1 = g
      · rw [if_pos hpg, if_pos hpg]
      · rw [if_neg hpg, if_neg hpg]; exact ih

theorem alookup_hdel_ne {V : Type} (m : List (String × V)) (k g : String)
    (h : g ≠ k) : alookup (hdel m k) g = alookup m g :=
  alookup_filter_ne m k g h

theorem alookup_hdel_self {V : Type} (m : List (String × V)) (k : String) :
    alookup (hdel m k) k = none := by
  have : List.find? (fun p => decide (p.1 = k))
      (m.filter (fun p => decide (p.1 ≠ k))) = none := by
    rw [List.find?_eq_none]
    intro p hp
    rcases List.mem_filter.mp hp with ⟨_, hne⟩
    simpa using (by simpa using hne : p.1 ≠ k)
  simp [hdel, alookup, this]

theorem alookup_hset_self {V : Type} (m : List (String × V)) (k : String)
    (v : V) : alookup (hset m k v) k = some v := by
  rw [hset, alookup_cons]; simp

theorem alookup_hset_ne {V : Type} (m : List (String × V)) (k g : String)
    (v : V) (h : g ≠ k) : alookup (hset m k v) g = alookup m g := by
  rw [hset, alookup_cons, if_neg (fun hc => h hc.symm)]
  exact alookup_filter_ne m k g h

theorem mem_hkeys_hdel {V : Type} (m : List (String × V)) (k g : String) :
    g ∈ hkeys (hdel m k) ↔ g ∈ hkeys m ∧ g ≠ k := by
  constructor
  · intro h
    rcases mem_hkeys.mp h with ⟨w, hw⟩
    rcases List.mem_filter.mp hw with ⟨hm, hne⟩
    exact ⟨mem_hkeys.mpr ⟨w, hm⟩, by simpa using hne⟩
  · rintro ⟨h, hne⟩
    rcases mem_hkeys.mp h with ⟨w, hw⟩
    exact mem_hkeys.mpr ⟨w, List.mem_filter.mpr ⟨hw, by simpa using hne⟩⟩

theorem mem_hkeys_hset {V : Type} (m : List (String × V)) (k g : String)
    (v : V) : g ∈ hkeys (hset m k v) ↔ g = k ∨ g ∈ hkeys m := by
  constructor
  · intro h
    rcases mem_hkeys.mp h with ⟨w, hw⟩
    rcases List.mem_cons.mp hw with h1 | h1
    · left; exact congrArg Prod.fst h1
    · right; exact mem_hkeys.mpr ⟨w, (List.mem_filter.mp h1).1⟩
  · intro h
    rcases h with rfl | h
    · exact mem_hkeys.mpr ⟨v, List.mem_cons_self _ _⟩
    · by_cases hgk : g = k
      · exact mem_hkeys.mpr ⟨v, hgk ▸ List.mem_cons_self _ _⟩
      · rcases mem_hkeys.mp h with ⟨w, hw⟩
        exact mem_hkeys.mpr
          ⟨w, List.mem_cons_of_mem _ (List.mem_filter.mpr ⟨hw, by simpa using hgk⟩)⟩

theorem mem_hdel_subset {V : Type} {m : List (String × V)} {k : String}
    {p : String × V} (h : p ∈ hdel m k) : p ∈ m :=
  (List.mem_filter.mp h).1

theorem mem_hkeys_hdelAll {V : Type} (ks : List String)
    (m : List (String × V)) (g : String) :
    g ∈ hkeys (hdelAll m ks) ↔ g ∈ hkeys m ∧ g ∉ ks := by
  induction ks generalizing m with
  | nil => simp [hdelAll]
  | cons a rest ih =>
    have : hdelAll m (a :: rest) = hdelAll (hdel m a) rest := rfl
    rw [this, ih, mem_hkeys_hdel]
    constructor
    · rintro ⟨⟨hm, hne⟩, hrest⟩
      exact ⟨hm, by simp [hne, hrest]⟩
    · rintro ⟨hm, hnot⟩
      simp only [List.mem_cons, not_or] at hnot
      exact ⟨⟨hm, hnot.1⟩, hnot.2⟩

theorem alookup_hdelAll_ne {V : Type} (ks : List String)
    (m : List (String × V)) (g : String) (h : g ∉ ks) :
    alookup (hdelAll m ks) g = alookup m g := by
  induction ks generalizing m with
  | nil => rfl
  | cons a rest ih =>
    simp only [List.mem_cons, not_or] at h
    have : hdelAll m (a :: rest) = hdelAll (hdel m a) rest := rfl
    rw [this, ih _ h.2, alookup_hdel_ne _ _ _ h.1]

theorem mem_hdelAll_subset {V : Type} (ks : List String)
    {m : List (String × V)} {p : String × V} (h : p ∈ hdelAll m ks) :
    p ∈ m := by
  induction ks generalizing m with
  | nil => exact h
  | cons a rest ih => exact mem_hdel_subset (ih h)

theorem removeOrphan_infos_keys (st : RedisState) (k : String) :
    k ∈ hkeys (removeOrphan st).infos ↔
      k ∈ hkeys st.infos ∧ k ∈ hkeys st.raw := by
  show k ∈ hkeys (hdelAll st.infos _) ↔ _
  rw [mem_hkeys_hdelAll]
  constructor
  · rintro ⟨hm, hnot⟩
    refine ⟨hm, ?_⟩
    by_contra hraw
    exact hnot (List.mem_filter.mpr ⟨hm, by simpa using hraw⟩)
  · rintro ⟨hm, hraw⟩
    refine ⟨hm, fun hc => ?_⟩
    have h2 := (List.mem_filter.mp hc).2
    simp only [decide_eq_true_eq] at h2
    exact h2 hraw

theorem removeOrphan_raw_keys (st : RedisState) (k : String) :
    k ∈ hkeys (removeOrphan st).raw ↔
      k ∈ hkeys st.raw ∧ k ∈ hkeys st.infos := by
  show k ∈ hkeys (hdelAll st.raw _) ↔ _
  rw [mem_hkeys_hdelAll]
  constructor
  · rintro ⟨hm, hnot⟩
    refine ⟨hm, ?_⟩
    by_contra hinf
    refine hnot (List.mem_filter.mpr ⟨hm, ?_⟩)
    simp only [decide_eq_true_eq]
    intro hc
    exact hinf (List.mem_filter.mp hc).1
  · rintro ⟨hm, hinf⟩
    refine ⟨hm, fun hc => ?_⟩
    have h2 := (List.mem_filter.mp hc).2
    simp only [decide_eq_true_eq] at h2
    exact h2 (List.mem_filter.mpr ⟨hinf, by simpa using hm⟩)

theorem removeOrphan_alookup_infos (st : RedisState) (k : String)
    (hi : k ∈ hkeys st.infos) (hr : k ∈ hkeys st.raw) :
    alookup (removeOrphan st).infos k = alookup st.infos k := by
  show alookup (hdelAll st.infos _) k = _
  refine alookup_hdelAll_ne _ _ _ (fun hc => ?_)
  have h2 := (List.mem_filter.mp hc).2
  simp only [decide_eq_true_eq] at h2
  exact h2 hr

theorem removeOrphan_alookup_raw (st : RedisState) (k : String)
    (hi : k ∈ hkeys st.infos) (hr : k ∈ hkeys st.raw) :
    alookup (removeOrphan st).raw k = alookup st.raw k := by
  show alookup (hdelAll st.raw _) k = _
  refine alookup_hdelAll_ne _ _ _ (fun hc => ?_)
  have h2 := (List.mem_filter.mp hc).2
  simp only [decide_eq_true_eq] at h2
  exact h2 (List.mem_filter.mpr ⟨hi, by simpa using hr⟩)

theorem removeOrphan_eq_self (st : RedisState)
    (h : ∀ k, k ∈ hkeys st.infos ↔ k ∈ hkeys st.raw) :
    removeOrphan st = st := by
  have h1 : (hkeys st.infos).filter (fun k => decide (k ∉ hkeys st.raw)) = [] := by
    rw [List.filter_eq_nil]
    intro k hk
    simpa using (h k).mp hk
  have h2 : (hkeys st.infos).filter (fun k => decide (k ∈ hkeys st.raw))
      = hkeys st.infos := by
    rw [List.filter_eq_self]
    intro k hk
    simpa using (h k).mp hk
  have h3 : (hkeys st.raw).filter
      (fun k => decide (k ∉ (hkeys st.infos).filter
        (fun g => decide (g ∈ hkeys st.raw)))) = [] := by
    rw [List.filter_eq_nil]
    intro k hk
    simp only [decide_eq_true_eq, not_not]
    exact List.mem_filter.mpr ⟨(h k).mpr hk, by simpa using hk⟩
  show (⟨hdelAll st.infos _, hdelAll st.raw _⟩ : RedisState) = st
  rw [h1, h3]
  rfl

theorem mem_removeOrphan_infos_subset {st : RedisState}
    {p : String × Option FileInfos} (h : p ∈ (removeOrphan st).infos) :
    p ∈ st.infos :=
  mem_hdelAll_subset _ h

theorem deleteFile_eq (st : RedisState) (f : String) :
    deleteFile st f = ⟨hdel st.infos f, hdel st.raw f⟩ := rfl

theorem addFile_eq (H : Bytes → String) (thumb : String → Bytes → Bytes)
    (st : RedisState) (f : String) (raw : Bytes) (tp : Bool) :
    addFile H thumb st f raw tp =
      ⟨hset st.infos f (some ⟨H raw, raw.length⟩),
       hset st.raw f (if tp then thumb f raw else raw)⟩ := rfl

theorem foldl_deleteFile_infos_mem (L : List String) (st : RedisState)
    (k : String) :
    k ∈ hkeys (L.foldl deleteFile st).infos ↔
      k ∈ hkeys st.infos ∧ k ∉ L := by
  induction L generalizing st with
  | nil => simp
  | cons a rest ih =>
    rw [List.foldl_cons, ih, deleteFile_eq]
    show k ∈ hkeys (hdel st.infos a) ∧ _ ↔ _
    rw [mem_hkeys_hdel]
    constructor
    · rintro ⟨⟨h1, h2⟩, h3⟩; exact ⟨h1, by simp [h2, h3]⟩
    · rintro ⟨h1, h2⟩
      simp only [List.mem_cons, not_or] at h2
      exact ⟨⟨h1, h2.1⟩, h2.2⟩

theorem foldl_deleteFile_raw_mem (L : List String) (st : RedisState)
    (k : String) :
    k ∈ hkeys (L.foldl deleteFile st).raw ↔
      k ∈ hkeys st.raw ∧ k ∉ L := by
  induction L generalizing st with
  | nil => simp
  | cons a rest ih =>
    rw [List.foldl_cons, ih, deleteFile_eq]
    show k ∈ hkeys (hdel st.raw a) ∧ _ ↔ _
    rw [mem_hkeys_hdel]
    constructor
    · rintro ⟨⟨h1, h2⟩, h3⟩; exact ⟨h1, by simp [h2, h3]⟩
    · rintro ⟨h1, h2⟩
      simp only [List.mem_cons, not_or] at h2
      exact ⟨⟨h1, h2.1⟩, h2.2⟩

theorem foldl_deleteFile_alookup (L : List String) (st : RedisState)
    (k : String) (h : k ∉ L) :
    alookup (L.foldl deleteFile st).infos k = alookup st.infos k ∧
    alookup (L.foldl deleteFile st).raw k = alookup st.raw k := by
  induction L generalizing st with
  | nil => exact ⟨rfl, rfl⟩
  | cons a rest ih =>
    simp only [List.mem_cons, not_or] at h
    rw [List.foldl_cons]
    rcases ih (deleteFile st a) h.2 with ⟨h1, h2⟩
    rw [h1, h2, deleteFile_eq]
    exact ⟨alookup_hdel_ne _ _ _ h.1, alookup_hdel_ne _ _ _ h.1⟩

theorem foldl_deleteFile_infos_subset (L : List String) {st : RedisState}
    {p : String × Option FileInfos}
    (h : p ∈ (L.foldl deleteFile st).infos) : p ∈ st.infos := by
  induction L generalizing st with
  | nil => exact h
  | cons a rest ih => exact mem_hdel_subset (ih h)

theorem mem_getFileInfos_names (m : List (String × Option FileInfos))
    (k : String) :
    k ∈ (getFileInfos m).map Prod.fst ↔ ∃ fi, (k, some fi) ∈ m := by
  constructor
  · intro h
    rcases List.mem_map.mp h with ⟨q, hq, hfst⟩
    rcases List.mem_filterMap.mp hq with ⟨p, hp, hmap⟩
    rcases hp2 : p.2 with _ | fi
    · rw [hp2] at hmap; exact absurd hmap (by simp)
    · rw [hp2] at hmap
      simp only [Option.map_some'] at hmap
      have hq2 : (p.1, fi) = q := Option.some.inj hmap
      refine ⟨fi, ?_⟩
      have h1 : p.1 = k := by rw [← hfst, ← hq2]
      have hpe : p = (k, some fi) := Prod.ext h1 (by rw [hp2])
      exact hpe ▸ hp
  · rintro ⟨fi, hfi⟩
    refine List.mem_map.mpr ⟨(k, fi), List.mem_filterMap.mpr ⟨(k, some fi), hfi, rfl⟩, rfl⟩

theorem mem_getFileInfos_names_valid (m : List (String × Option FileInfos))
    (k : String) (hv : ∀ p ∈ m, p.2 ≠ none) :
    k ∈ (getFileInfos m).map Prod.fst ↔ k ∈ hkeys m := by
  rw [mem_getFileInfos_names]
  constructor
  · rintro ⟨fi, hfi⟩; exact mem_hkeys.mpr ⟨some fi, hfi⟩
  · intro h
    rcases mem_hkeys.mp h with ⟨v, hvmem⟩
    rcases hv2 : v with _ | fi
    · exact absurd (by simpa using hv (k, v) hvmem) (by simp [hv2])
    · exact ⟨fi, hv2 ▸ hvmem⟩

theorem alookup_getFileInfos (m : List (String × Option FileInfos))
    (k : String) (hv : ∀ p ∈ m, p.2 ≠ none) :
    alookup (getFileInfos m) k = (alookup m k).join := by
  induction m with
  | nil => rfl
  | cons p rest ih =>
    have hv2 : ∀ q ∈ rest, q.2 ≠ none :=
      fun q hq => hv q (List.mem_cons_of_mem _ hq)
    rcases hp : p.2 with _ | fi
    · exact absurd hp (hv p (List.mem_cons_self _ _))
    · have hstep : getFileInfos (p :: rest) = (p.1, fi) :: getFileInfos rest := by
        simp [getFileInfos, List.filterMap_cons, hp]
      rw [hstep, alookup_cons, alookup_cons]
      by_cases hk : p.1 = k
      · simp [hk, hp]
      · simp [hk, ih hv2]

theorem downloadLoop_cons_error (H : Bytes → String)
    (thumb : String → Bytes → Bytes) (fetch : String → Except Unit Bytes)
    (tp : Bool) (st : RedisState) (f : String) (rest : List String)
    (hf : fetch f = Except.error ()) :
    downloadLoop H thumb fetch tp st (f :: rest) = (st, 0, true) := by
  simp [downloadLoop, hf]

theorem downloadLoop_cons_empty (H : Bytes → String)
    (thumb : String → Bytes → Bytes) (fetch : String → Except Unit Bytes)
    (tp : Bool) (st : RedisState) (f : String) (rest : List String)
    (hf : fetch f = Except.ok []) :
    downloadLoop H thumb fetch tp st (f :: rest) =
      downloadLoop H thumb fetch tp st rest := by
  simp [downloadLoop, hf]

theorem downloadLoop_cons_ok (H : Bytes → String)
    (thumb : String → Bytes → Bytes) (fetch : String → Except Unit Bytes)
    (tp : Bool) (st : RedisState) (f : String) (rest : List String)
    (b : Bytes) (hf : fetch f = Except.ok b) (hb : b ≠ []) :
    downloadLoop H thumb fetch tp st (f :: rest) =
      ((downloadLoop H thumb fetch tp (addFile H thumb st f b tp) rest).1,
       (downloadLoop H thumb fetch tp (addFile H thumb st f b tp) rest).2.1 + 1,
       (downloadLoop H thumb fetch tp (addFile H thumb st f b tp) rest).2.2) := by
  simp [downloadLoop, hf, hb]

theorem downloadLoop_alookup_not_mem (H : Bytes → String)
    (thumb : String → Bytes → Bytes) (fetch : String → Except Unit Bytes)
    (tp : Bool) (ds : List String) (st : RedisState) (k : String)
    (h : k ∉ ds) :
    alookup (downloadLoop H thumb fetch tp st ds).1.infos k =
        alookup st.infos k ∧
    alookup (downloadLoop H thumb fetch tp st ds).1.raw k =
        alookup st.raw k := by
  induction ds generalizing st with
  | nil => exact ⟨rfl, rfl⟩
  | cons f rest ih =>
    simp only [List.mem_cons, not_or] at h
    rcases hf : fetch f with e | b
    · cases e
      rw [downloadLoop_cons_error H thumb fetch tp st f rest hf]
      exact ⟨rfl, rfl⟩
    · by_cases hb : b = []
      · rw [hb] at hf
        rw [downloadLoop_cons_empty H thumb fetch tp st f rest hf]
        exact ih st h.2
      · rw [downloadLoop_cons_ok H thumb fetch tp st f rest b hf hb]
        rcases ih (addFile H thumb st f b tp) h.2 with ⟨h1, h2⟩
        rw [h1, h2, addFile_eq]
        exact ⟨alookup_hset_ne _ _ _ _ h.1, alookup_hset_ne _ _ _ _ h.1⟩

theorem downloadLoop_keys_ok (H : Bytes → String)
    (thumb : String → Bytes → Bytes) (fetch : String → Except Unit Bytes)
    (tp : Bool) (ds : List String) (st : RedisState)
    (hs : ∀ f ∈ ds, ∃ b, fetch f = Except.ok b ∧ b ≠ []) (k : String) :
    (downloadLoop H thumb fetch tp st ds).2.2 = false ∧
    (k ∈ hkeys (downloadLoop H thumb fetch tp st ds).1.infos ↔
      k ∈ hkeys st.infos ∨ k ∈ ds) ∧
    (k ∈ hkeys (downloadLoop H thumb fetch tp st ds).1.raw ↔
      k ∈ hkeys st.raw ∨ k ∈ ds) := by
  induction ds generalizing st with
  | nil => simp [downloadLoop]
  | cons f rest ih =>
    rcases hs f (List.mem_cons_self _ _) with ⟨b, hf, hb⟩
    have hs2 : ∀ g ∈ rest, ∃ c, fetch g = Except.ok c ∧ c ≠ [] :=
      fun g hg => hs g (List.mem_cons_of_mem _ hg)
    rw [downloadLoop_cons_ok H thumb fetch tp st f rest b hf hb]
    rcases ih (addFile H thumb st f b tp) hs2 with ⟨h1, h2, h3⟩
    refine ⟨h1, ?_, ?_⟩
    · rw [h2, addFile_eq]
      show k ∈ hkeys (hset st.infos f _) ∨ _ ↔ _
      rw [mem_hkeys_hset]
      constructor
      · rintro ((rfl | h) | h)
        · exact Or.inr (List.mem_cons_self _ _)
        · exact Or.inl h
        · exact Or.inr (List.mem_cons_of_mem _ h)
      · rintro (h | h)
        · exact Or.inl (Or.inr h)
        · rcases List.mem_cons.mp h with rfl | h
          · exact Or.inl (Or.inl rfl)
          · exact Or.inr h
    · rw [h3, addFile_eq]
      show k ∈ hkeys (hset st.raw f _) ∨ _ ↔ _
      rw [mem_hkeys_hset]
      constructor
      · rintro ((rfl | h) | h)
        · exact Or.inr (List.mem_cons_self _ _)
        · exact Or.inl h
        · exact Or.inr (List.mem_cons_of_mem _ h)
      · rintro (h | h)
        · exact Or.inl (Or.inr h)
        · rcases List.mem_cons.mp h with rfl | h
          · exact Or.inl (Or.inl rfl)
          · exact Or.inr h

theorem downloadLoop_alookup_mem (H : Bytes → String)
    (thumb : String → Bytes → Bytes) (fetch : String → Except Unit Bytes)
    (tp : Bool) (ds : List String) (st : RedisState)
    (hs : ∀ f ∈ ds, ∃ b, fetch f = Except.ok b ∧ b ≠ []) (k : String)
    (hk : k ∈ ds) (b : Bytes) (hkb : fetch k = Except.ok b) :
    alookup (downloadLoop H thumb fetch tp st ds).1.infos k =
      some (some ⟨H b, b.length⟩) ∧
    alookup (downloadLoop H thumb fetch tp st ds).1.raw k =
      some (if tp then thumb k b else b) := by
  induction ds generalizing st with
  | nil => cases hk
  | cons f rest ih =>
    rcases hs f (List.mem_cons_self _ _) with ⟨c, hf, hc⟩
    have hs2 : ∀ g ∈ rest, ∃ d, fetch g = Except.ok d ∧ d ≠ [] :=
      fun g hg => hs g (List.mem_cons_of_mem _ hg)
    rw [downloadLoop_cons_ok H thumb fetch tp st f rest c hf hc]
    by_cases hfk : f = k
    · have hcb : c = b := by
        rw [hfk] at hf
        exact Except.ok.inj (hf.symm.trans hkb)
      by_cases hkr : k ∈ rest
      · exact ih (addFile H thumb st f c tp) hs2 hkr
      · rcases downloadLoop_alookup_not_mem H thumb fetch tp rest
          (addFile H thumb st f c tp) k hkr with ⟨h1, h2⟩
        rw [h1, h2, addFile_eq, hfk, hcb]
        exact ⟨alookup_hset_self _ _ _, alookup_hset_self _ _ _⟩
    · have hkr : k ∈ rest := by
        rcases List.mem_cons.mp hk with rfl | h
        · exact absurd rfl hfk
        · exact h
      exact ih (addFile H thumb st f c tp) hs2 hkr

theorem downloadLoop_absent (H : Bytes → String)
    (thumb : String → Bytes → Bytes) (fetch : String → Except Unit Bytes)
    (tp : Bool) (ds : List String) (st : RedisState) (k : String)
    (hemp : fetch k = Except.ok []) (hi : k ∉ hkeys st.infos)
    (hr : k ∉ hkeys st.raw) :
    k ∉ hkeys (downloadLoop H thumb fetch tp st ds).1.infos ∧
    k ∉ hkeys (downloadLoop H thumb fetch tp st ds).1.raw := by
  induction ds generalizing st with
  | nil => exact ⟨hi, hr⟩
  | cons f rest ih =>
    rcases hf : fetch f with e | b
    · cases e
      rw [downloadLoop_cons_error H thumb fetch tp st f rest hf]
      exact ⟨hi, hr⟩
    · by_cases hb : b = []
      · rw [hb] at hf
        rw [downloadLoop_cons_empty H thumb fetch tp st f rest hf]
        exact ih st hi hr
      · have hfk : f ≠ k := by
          rintro rfl
          exact hb (Except.ok.inj (hf.symm.trans hemp))
        rw [downloadLoop_cons_ok H thumb fetch tp st f rest b hf hb]
        refine ih (addFile H thumb st f b tp) ?_ ?_
        · rw [addFile_eq]
          show k ∉ hkeys (hset st.infos f _)
          rw [mem_hkeys_hset]
          rintro (rfl | h)
          · exact hfk rfl
          · exact hi h
        · rw [addFile_eq]
          show k ∉ hkeys (hset st.raw f _)
          rw [mem_hkeys_hset]
          rintro (rfl | h)
          · exact hfk rfl
          · exact hr h

theorem toDownloadList_subset (localD : List (String × FileInfos))
    (toSyncD : List (String × String)) (k : String)
    (h : k ∈ toDownloadList localD toSyncD) : k ∈ hkeys toSyncD := by
  rcases List.mem_append.mp h with h1 | h1
  · exact (List.mem_filter.mp h1).1
  · have h2 := (List.mem_filter.mp (List.mem_filter.mp h1).1).2
    simpa using h2

theorem hset_valid_some (m : List (String × Option FileInfos)) (k : String)
    (fi : FileInfos) (hv : ∀ p ∈ m, p.2 ≠ none) :
    ∀ p ∈ hset m k (some fi), p.2 ≠ none := by
  intro p hp
  rcases List.mem_cons.mp hp with rfl | h
  · simp
  · exact hv p (List.mem_filter.mp h).1

theorem downloadLoop_valid (H : Bytes → String)
    (thumb : String → Bytes → Bytes) (fetch : String → Except Unit Bytes)
    (tp : Bool) (ds : List String) (st : RedisState)
    (hv : ∀ p ∈ st.infos, p.2 ≠ none) :
    ∀ p ∈ (downloadLoop H thumb fetch tp st ds).1.infos, p.2 ≠ none := by
  induction ds generalizing st with
  | nil => exact hv
  | cons f rest ih =>
    rcases hf : fetch f with e | b
    · cases e
      rw [downloadLoop_cons_error H thumb fetch tp st f rest hf]
      exact hv
    · by_cases hb : b = []
      · rw [hb] at hf
        rw [downloadLoop_cons_empty H thumb fetch tp st f rest hf]
        exact ih st hv
      · rw [downloadLoop_cons_ok H thumb fetch tp st f rest b hf hb]
        refine ih (addFile H thumb st f b tp) ?_
        rw [addFile_eq]
        exact hset_valid_some st.infos f _ hv

theorem syncWithSftp_st (H : Bytes → String) (thumb : String → Bytes → Bytes)
    (fetch : String → Except Unit Bytes) (st : RedisState)
    (toSyncD : List (String × String)) (tp : Bool) :
    (syncWithSftp H thumb fetch st toSyncD tp).st =
      (downloadLoop H thumb fetch tp
        ((toRemoveList (getFileInfos st.infos) toSyncD).foldl deleteFile st)
        (toDownloadList (getFileInfos st.infos) toSyncD)).1 := rfl

theorem syncWithSftp_aborted (H : Bytes → String)
    (thumb : String → Bytes → Bytes) (fetch : String → Except Unit Bytes)
    (st : RedisState) (toSyncD : List (String × String)) (tp : Bool) :
    (syncWithSftp H thumb fetch st toSyncD tp).aborted =
      (downloadLoop H thumb fetch tp
        ((toRemoveList (getFileInfos st.infos) toSyncD).foldl deleteFile st)
        (toDownloadList (getFileInfos st.infos) toSyncD)).2.2 := rfl

theorem syncWithSftp_deleted (H : Bytes → String)
    (thumb : String → Bytes → Bytes) (fetch : String → Except Unit Bytes)
    (st : RedisState) (toSyncD : List (String × String)) (tp : Bool) :
    (syncWithSftp H thumb fetch st toSyncD tp).deleted =
      (toRemoveList (getFileInfos st.infos) toSyncD).length := rfl

theorem syncWithSftp_fetched (H : Bytes → String)
    (thumb : String → Bytes → Bytes) (fetch : String → Except Unit Bytes)
    (st : RedisState) (toSyncD : List (String × String)) (tp : Bool) :
    (syncWithSftp H thumb fetch st toSyncD tp).fetched =
      (downloadLoop H thumb fetch tp
        ((toRemoveList (getFileInfos st.infos) toSyncD).foldl deleteFile st)
        (toDownloadList (getFileInfos st.infos) toSyncD)).2.1 := rfl

theorem mem_toRemoveList (localD : List (String × FileInfos))
    (toSyncD : List (String × String)) (k : String) :
    k ∈ toRemoveList localD toSyncD ↔
      k ∈ localD.map Prod.fst ∧ k ∉ hkeys toSyncD := by
  constructor
  · intro h
    rcases List.mem_filter.mp h with ⟨h1, h2⟩
    exact ⟨h1, by simpa using h2⟩
  · rintro ⟨h1, h2⟩
    exact List.mem_filter.mpr ⟨h1, by simpa using h2⟩

theorem mem_toDownloadList_left (localD : List (String × FileInfos))
    (toSyncD : List (String × String)) (k : String)
    (h1 : k ∈ hkeys toSyncD) (h2 : k ∉ localD.map Prod.fst) :
    k ∈ toDownloadList localD toSyncD :=
  List.mem_append.mpr (Or.inl (List.mem_filter.mpr ⟨h1, by simpa using h2⟩))

theorem not_mem_toDownloadList_sha (localD : List (String × FileInfos))
    (toSyncD : List (String × String)) (k : String)
    (h1 : k ∈ hkeys toSyncD) (hnd : k ∉ toDownloadList localD toSyncD) :
    k ∈ localD.map Prod.fst ∧
      (alookup localD k).map FileInfos.sha256 = alookup toSyncD k := by
  have hmem : k ∈ localD.map Prod.fst := by
    by_contra h2
    exact hnd (mem_toDownloadList_left localD toSyncD k h1 h2)
  refine ⟨hmem, ?_⟩
  by_contra hne
  refine hnd (List.mem_append.mpr (Or.inr ?_))
  exact List.mem_filter.mpr
    ⟨List.mem_filter.mpr ⟨hmem, by simpa using h1⟩, by simpa using hne⟩

theorem syncWithSftp_main (H : Bytes → String)
    (thumb : String → Bytes → Bytes) (fetch : String → Except Unit Bytes)
    (st : RedisState) (toSyncD : List (String × String)) (tp : Bool)
    (hv : ∀ p ∈ st.infos, p.2 ≠ none)
    (heq : ∀ g, g ∈ hkeys st.infos ↔ g ∈ hkeys st.raw)
    (hs : ∀ f ∈ hkeys toSyncD, ∃ b, fetch f = Except.ok b ∧ b ≠ []) :
    (syncWithSftp H thumb fetch st toSyncD tp).aborted = false ∧
    (∀ k, k ∈ hkeys (syncWithSftp H thumb fetch st toSyncD tp).st.infos ↔
      k ∈ hkeys toSyncD) ∧
    (∀ k, k ∈ hkeys (syncWithSftp H thumb fetch st toSyncD tp).st.raw ↔
      k ∈ hkeys toSyncD) ∧
    (∀ p ∈ (syncWithSftp H thumb fetch st toSyncD tp).st.infos,
      p.2 ≠ none) ∧
    (∀ k ∈ hkeys toSyncD, ∀ b, fetch k = Except.ok b →
      alookup (syncWithSftp H thumb fetch st toSyncD tp).st.infos k =
          some (some ⟨H b, b.length⟩) ∨
      ((alookup (syncWithSftp H thumb fetch st toSyncD tp).st.infos k).join).map
          FileInfos.sha256 = alookup toSyncD k) := by
  have hsd : ∀ f ∈ toDownloadList (getFileInfos st.infos) toSyncD,
      ∃ b, fetch f = Except.ok b ∧ b ≠ [] :=
    fun f hf => hs f (toDownloadList_subset _ _ _ hf)
  have hlocal : ∀ g, g ∈ (getFileInfos st.infos).map Prod.fst ↔
      g ∈ hkeys st.infos :=
    fun g => mem_getFileInfos_names_valid st.infos g hv
  have hout := fun k => downloadLoop_keys_ok H thumb fetch tp
    (toDownloadList (getFileInfos st.infos) toSyncD)
    ((toRemoveList (getFileInfos st.infos) toSyncD).foldl deleteFile st) hsd k
  simp only [syncWithSftp_st, syncWithSftp_aborted]
  refine ⟨(hout "").1, ?_, ?_, ?_, ?_⟩
  · intro k
    rw [(hout k).2.1, foldl_deleteFile_infos_mem]
    constructor
    · rintro (⟨hki, hkr⟩ | hkd)
      · by_contra hns
        exact hkr ((mem_toRemoveList _ _ _).mpr ⟨(hlocal k).mpr hki, hns⟩)
      · exact toDownloadList_subset _ _ _ hkd
    · intro hks
      by_cases hkl : k ∈ (getFileInfos st.infos).map Prod.fst
      · exact Or.inl ⟨(hlocal k).mp hkl,
          fun hc => ((mem_toRemoveList _ _ _).mp hc).2 hks⟩
      · exact Or.inr (mem_toDownloadList_left _ _ _ hks hkl)
  · intro k
    rw [(hout k).2.2, foldl_deleteFile_raw_mem]
    constructor
    · rintro (⟨hki, hkr⟩ | hkd)
      · by_contra hns
        exact hkr ((mem_toRemoveList _ _ _).mpr
          ⟨(hlocal k).mpr ((heq k).mpr hki), hns⟩)
      · exact toDownloadList_subset _ _ _ hkd
    · intro hks
      by_cases hkl : k ∈ (getFileInfos st.infos).map Prod.fst
      · exact Or.inl ⟨(heq k).mp ((hlocal k).mp hkl),
          fun hc => ((mem_toRemoveList _ _ _).mp hc).2 hks⟩
      · exact Or.inr (mem_toDownloadList_left _ _ _ hks hkl)
  · refine downloadLoop_valid H thumb fetch tp _ _ ?_
    exact fun p hp => hv p (foldl_deleteFile_infos_subset _ hp)
  · intro k hks b hkb
    by_cases hkd : k ∈ toDownloadList (getFileInfos st.infos) toSyncD
    · exact Or.inl (downloadLoop_alookup_mem H thumb fetch tp _ _ hsd k hkd
        b hkb).1
    · have hpres := downloadLoop_alookup_not_mem H thumb fetch tp
        (toDownloadList (getFileInfos st.infos) toSyncD)
        ((toRemoveList (getFileInfos st.infos) toSyncD).foldl deleteFile st)
        k hkd
      have hkr : k ∉ toRemoveList (getFileInfos st.infos) toSyncD :=
        fun hc => ((mem_toRemoveList _ _ _).mp hc).2 hks
      have hpres2 := foldl_deleteFile_alookup
        (toRemoveList (getFileInfos st.infos) toSyncD) st k hkr
      obtain ⟨hmem, hsha⟩ := not_mem_toDownloadList_sha _ _ k hks hkd
      right
      rw [hpres.1, hpres2.1, ← alookup_getFileInfos st.infos k hv]
      exact hsha

theorem reconcile_eq (H : Bytes → String) (thumb : String → Bytes → Bytes)
    (fetch : String → Except Unit Bytes) (st : RedisState)
    (toSyncD : List (String × String)) (tp : Bool) :
    reconcile H thumb fetch st toSyncD tp =
      syncWithSftp H thumb fetch (removeOrphan st) toSyncD tp := rfl

theorem removeOrphan_keys_balanced (st : RedisState) :
    ∀ g, g ∈ hkeys (removeOrphan st).infos ↔
      g ∈ hkeys (removeOrphan st).raw := by
  intro g
  rw [removeOrphan_infos_keys, removeOrphan_raw_keys]
  exact ⟨fun h => ⟨h.2, h.1⟩, fun h => ⟨h.2, h.1⟩⟩

theorem reconcile_main (H : Bytes → String) (thumb : String → Bytes → Bytes)
    (fetch : String → Except Unit Bytes) (st : RedisState)
    (toSyncD : List (String × String)) (tp : Bool)
    (hv : ∀ p ∈ st.infos, p.2 ≠ none)
    (hs : ∀ f ∈ hkeys toSyncD, ∃ b, fetch f = Except.ok b ∧ b ≠ []) :
    (reconcile H thumb fetch st toSyncD tp).aborted = false ∧
    (∀ k, k ∈ hkeys (reconcile H thumb fetch st toSyncD tp).st.infos ↔
      k ∈ hkeys toSyncD) ∧
    (∀ k, k ∈ hkeys (reconcile H thumb fetch st toSyncD tp).st.raw ↔
      k ∈ hkeys toSyncD) ∧
    (∀ p ∈ (reconcile H thumb fetch st toSyncD tp).st.infos, p.2 ≠ none) ∧
    (∀ k ∈ hkeys toSyncD, ∀ b, fetch k = Except.ok b →
      alookup (reconcile H thumb fetch st toSyncD tp).st.infos k =
          some (some ⟨H b, b.length⟩) ∨
      ((alookup (reconcile H thumb fetch st toSyncD tp).st.infos k).join).map
          FileInfos.sha256 = alookup toSyncD k) := by
  rw [reconcile_eq]
  exact syncWithSftp_main H thumb fetch (removeOrphan st) toSyncD tp
    (fun p hp => hv p (mem_removeOrphan_infos_subset hp))
    (removeOrphan_keys_balanced st) hs

/-- C1: after `RedisFile.remove_orphan` completes, the field set of the
metadata hash equals the field set of the raw hash; every key present in the
metadata hash but absent from the raw hash has been deleted from the metadata
hash, every key present in the raw hash but absent from the metadata hash has
been deleted from the raw hash, and a key present in both hashes keeps both
of its stored values untouched. -/
theorem c1_remove_orphan_repair (st : RedisState) (k : String) :
    (k ∈ hkeys (removeOrphan st).infos ↔ k ∈ hkeys (removeOrphan st).raw) ∧
    (k ∈ hkeys st.infos → k ∉ hkeys st.raw →
      k ∉ hkeys (removeOrphan st).infos) ∧
    (k ∈ hkeys st.raw → k ∉ hkeys st.infos →
      k ∉ hkeys (removeOrphan st).raw) ∧
    (k ∈ hkeys st.infos → k ∈ hkeys st.raw →
      alookup (removeOrphan st).infos k = alookup st.infos k ∧
      alookup (removeOrphan st).raw k = alookup st.raw k) := by
  refine ⟨removeOrphan_keys_balanced st k, ?_, ?_, ?_⟩
  · intro h1 h2 hc
    exact h2 ((removeOrphan_infos_keys st k).mp hc).2
  · intro h1 h2 hc
    exact h2 ((removeOrphan_raw_keys st k).mp hc).2
  · intro h1 h2
    exact ⟨removeOrphan_alookup_infos st k h1 h2,
      removeOrphan_alookup_raw st k h1 h2⟩

/-- Witness for C1 on a concrete corrupted state: `"b"` is an orphan of the
metadata hash (also a malformed record), `"c"` an orphan of the raw hash;
repair deletes both and keeps the value of the shared key `"a"`. -/
theorem c1_remove_orphan_repair_witness :
    ("b" ∉ hkeys (removeOrphan (RedisState.mk
      [("a", some ⟨"h1", 1⟩), ("b", none)] [("a", [1]), ("c", [2])])).infos) ∧
    ("c" ∉ hkeys (removeOrphan (RedisState.mk
      [("a", some ⟨"h1", 1⟩), ("b", none)] [("a", [1]), ("c", [2])])).raw) ∧
    alookup (removeOrphan (RedisState.mk
      [("a", some ⟨"h1", 1⟩), ("b", none)] [("a", [1]), ("c", [2])])).infos "a"
      = alookup (RedisState.mk
      [("a", some ⟨"h1", 1⟩), ("b", none)] [("a", [1]), ("c", [2])]).infos "a" :=
  ⟨(c1_remove_orphan_repair _ "b").2.1 (by decide) (by decide),
   (c1_remove_orphan_repair _ "c").2.2.1 (by decide) (by decide),
   ((c1_remove_orphan_repair _ "a").2.2.2 (by decide) (by decide)).1⟩

/-- C2: `add_file` writes the metadata entry and the raw entry as one
pipeline batch and `delete_file` deletes both entries as one pipeline batch:
when the batch executes, both hashes carry the new entries (or have both lost
them), and every other key is untouched; when the store operation fails the
state is unchanged. -/
theorem c2_add_delete_atomic (H : Bytes → String)
    (thumb : String → Bytes → Bytes) (st : RedisState) (f : String)
    (raw : Bytes) (tp : Bool) :
    alookup (execPipe true st (addFileCmds H thumb f raw tp)).infos f =
      some (some ⟨H raw, raw.length⟩) ∧
    alookup (execPipe true st (addFileCmds H thumb f raw tp)).raw f =
      some (if tp then thumb f raw else raw) ∧
    execPipe false st (addFileCmds H thumb f raw tp) = st ∧
    alookup (execPipe true st (deleteFileCmds f)).infos f = none ∧
    alookup (execPipe true st (deleteFileCmds f)).raw f = none ∧
    execPipe false st (deleteFileCmds f) = st ∧
    (∀ g, g ≠ f →
      alookup (execPipe true st (addFileCmds H thumb f raw tp)).infos g =
        alookup st.infos g ∧
      alookup (execPipe true st (addFileCmds H thumb f raw tp)).raw g =
        alookup st.raw g ∧
      alookup (execPipe true st (deleteFileCmds f)).infos g =
        alookup st.infos g ∧
      alookup (execPipe true st (deleteFileCmds f)).raw g =
        alookup st.raw g) := by
  have h1 : execPipe true st (addFileCmds H thumb f raw tp) =
      addFile H thumb st f raw tp := rfl
  have h2 : execPipe true st (deleteFileCmds f) = deleteFile st f := rfl
  rw [h1, h2, addFile_eq, deleteFile_eq]
  refine ⟨alookup_hset_self _ _ _, alookup_hset_self _ _ _, rfl,
    alookup_hdel_self _ _, alookup_hdel_self _ _, rfl, ?_⟩
  intro g hg
  exact ⟨alookup_hset_ne _ _ _ _ hg, alookup_hset_ne _ _ _ _ hg,
    alookup_hdel_ne _ _ _ hg, alookup_hdel_ne _ _ _ hg⟩

/-- Witness for C2 at a concrete store state and file. -/
theorem c2_add_delete_atomic_witness :
    alookup (execPipe true (RedisState.mk [] [])
      (addFileCmds (fun _ => "h") (fun _ b => b) "a.png" [1, 2] false)).infos
      "a.png" = some (some ⟨"h", 2⟩) ∧
    alookup (execPipe true (RedisState.mk [] [])
      (addFileCmds (fun _ => "h") (fun _ b => b) "a.png" [1, 2] false)).infos
      "b.png" = alookup (RedisState.mk [] []).infos "b.png" :=
  ⟨(c2_add_delete_atomic (fun _ => "h") (fun _ b => b) ⟨[], []⟩ "a.png"
      [1, 2] false).1,
   ((c2_add_delete_atomic (fun _ => "h") (fun _ b => b) ⟨[], []⟩ "a.png"
      [1, 2] false).2.2.2.2.2.2 "b.png" (by decide)).1⟩

/-- C3 counterexample: with thumbnailing enabled, `add_file` stores the
thumbnail bytes in the raw hash while the recorded SHA-256 and size come from
the pre-thumbnail download; at this input the recorded hash differs from the
hash of the stored bytes and the recorded size differs from their length, so
the claim is false as stated. -/
theorem c3_hash_prethumb_counterexample :
    alookup (addFile (fun b => String.mk (List.replicate b.length 'x'))
      (fun _ _ => [9]) ⟨[], []⟩ "doc.pdf" [1, 2, 3] true).raw "doc.pdf" =
      some [9] ∧
    alookup (addFile (fun b => String.mk (List.replicate b.length 'x'))
      (fun _ _ => [9]) ⟨[], []⟩ "doc.pdf" [1, 2, 3] true).infos "doc.pdf" =
      some (some ⟨"xxx", 3⟩) ∧
    ¬(String.mk (List.replicate ([9] : Bytes).length 'x') = "xxx" ∧
      (3 : Nat) = ([9] : Bytes).length) := by
  refine ⟨by decide, by decide, by decide⟩

/-- C3 amended: the content hash stored by `add_file` is the SHA-256 of the
ingested (pre-thumbnail) bytes and the stored size is their length; only when
thumbnail conversion is disabled do the raw hash bytes coincide with those
ingested bytes, making the recorded hash and size describe the stored raw
entry. -/
theorem c3_hash_of_ingested_bytes (H : Bytes → String)
    (thumb : String → Bytes → Bytes) (st : RedisState) (f : String)
    (raw : Bytes) (tp : Bool) :
    alookup (addFile H thumb st f raw tp).infos f =
      some (some ⟨H raw, raw.length⟩) ∧
    alookup (addFile H thumb st f raw tp).raw f =
      some (if tp then thumb f raw else raw) ∧
    alookup (addFile H thumb st f raw false).raw f = some raw ∧
    alookup (addFile H thumb st f raw false).infos f =
      some (some ⟨H raw, raw.length⟩) := by
  rw [addFile_eq, addFile_eq]
  refine ⟨alookup_hset_self _ _ _, alookup_hset_self _ _ _, ?_,
    alookup_hset_self _ _ _⟩
  simpa using alookup_hset_self st.raw f (if false then thumb f raw else raw)

/-- C4 counterexample: the claim quantifies over every starting cache state,
but a malformed metadata record (here `"bad.png"`, value unparseable) whose
key also sits in the raw hash is invisible to `get_file_infos_as_dict`, is
not an orphan, and is never deleted: after a reconcile against an empty
remote set (every fetch succeeding vacuously) the cache still contains it,
so `keys(cache) = R` fails. -/
theorem c4_reconcile_converges_counterexample :
    (∀ f ∈ hkeys ([] : List (String × String)),
      ∃ b, (fun _ : String => (Except.ok ([1] : Bytes) : Except Unit Bytes)) f
        = Except.ok b ∧ b ≠ []) ∧
    "bad.png" ∈ hkeys (reconcile (fun _ => "h0") (fun _ b => b)
      (fun _ => Except.ok [1]) ⟨[("bad.png", none)], [("bad.png", [7])]⟩
      [] false).st.infos ∧
    "bad.png" ∉ hkeys ([] : List (String × String)) := by
  refine ⟨?_, by decide, by decide⟩
  intro f hf
  cases hf

/-- C4 amended: for every filtered remote set and every starting cache state
whose metadata records are all well-formed, one reconcile in which every
fetch returns non-empty bytes completes unaborted and leaves the key set of
both cache hashes exactly equal to the remote key set. -/
theorem c4_reconcile_converges (H : Bytes → String)
    (thumb : String → Bytes → Bytes) (fetch : String → Except Unit Bytes)
    (st : RedisState) (toSyncD : List (String × String)) (tp : Bool)
    (hv : ∀ p ∈ st.infos, p.2 ≠ none)
    (hs : ∀ f ∈ hkeys toSyncD, ∃ b, fetch f = Except.ok b ∧ b ≠ []) :
    (reconcile H thumb fetch st toSyncD tp).aborted = false ∧
    (∀ k, k ∈ hkeys (reconcile H thumb fetch st toSyncD tp).st.infos ↔
      k ∈ hkeys toSyncD) ∧
    (∀ k, k ∈ hkeys (reconcile H thumb fetch st toSyncD tp).st.raw ↔
      k ∈ hkeys toSyncD) := by
  obtain ⟨h1, h2, h3, _, _⟩ := reconcile_main H thumb fetch st toSyncD tp hv hs
  exact ⟨h1, h2, h3⟩

/-- Witness for C4 at a concrete empty cache and one-file remote set. -/
theorem c4_reconcile_converges_witness :
    (reconcile (fun _ => "h0") (fun _ b => b) (fun _ => Except.ok [1])
      ⟨[], []⟩ [("a.png", "x")] false).aborted = false ∧
    (∀ k, k ∈ hkeys (reconcile (fun _ => "h0") (fun _ b => b)
        (fun _ => Except.ok [1]) ⟨[], []⟩ [("a.png", "x")] false).st.infos ↔
      k ∈ hkeys [("a.png", "x")]) ∧
    (∀ k, k ∈ hkeys (reconcile (fun _ => "h0") (fun _ b => b)
        (fun _ => Except.ok [1]) ⟨[], []⟩ [("a.png", "x")] false).st.raw ↔
      k ∈ hkeys [("a.png", "x")]) :=
  c4_reconcile_converges (fun _ => "h0") (fun _ b => b)
    (fun _ => Except.ok [1]) ⟨[], []⟩ [("a.png", "x")] false
    (fun p hp => by cases hp)
    (fun f hf => ⟨[1], rfl, by decide⟩)

/-- C5 counterexample: with no remote change between two calls (same
manifest, same fetch results, every fetch non-empty), the second reconcile
still performs one `add_file` write, because the manifest hash `"h1"` differs
from the locally recomputed hash of the fetched bytes, which the first call
stored; the claim's `fetched = 0` is false as stated. -/
theorem c5_reconcile_idempotent_counterexample :
    (∀ f ∈ hkeys [("a.png", "h1")],
      ∃ b, (fun _ : String => (Except.ok ([1] : Bytes) : Except Unit Bytes)) f
        = Except.ok b ∧ b ≠ []) ∧
    (reconcile (fun _ => "h0") (fun _ b => b) (fun _ => Except.ok [1])
      (reconcile (fun _ => "h0") (fun _ b => b) (fun _ => Except.ok [1])
        ⟨[], []⟩ [("a.png", "h1")] false).st [("a.png", "h1")] false).fetched
      = 1 :=
  ⟨fun f hf => ⟨[1], rfl, by decide⟩, by decide⟩

/-- C5 amended: starting from a cache whose metadata records are well-formed,
if every fetch returns non-empty bytes and every manifest hash equals the
locally computed SHA-256 of the bytes fetched for that name, then a second
reconcile with the unchanged manifest performs zero `delete_file` calls and
zero `add_file` calls, does not abort, and leaves the cache state exactly as
the first reconcile left it. -/
theorem c5_reconcile_idempotent (H : Bytes → String)
    (thumb : String → Bytes → Bytes) (fetch : String → Except Unit Bytes)
    (st : RedisState) (toSyncD : List (String × String)) (tp : Bool)
    (hv : ∀ p ∈ st.infos, p.2 ≠ none)
    (hs : ∀ f ∈ hkeys toSyncD, ∃ b, fetch f = Except.ok b ∧ b ≠ [])
    (hacc : ∀ f ∈ hkeys toSyncD, ∀ b, fetch f = Except.ok b →
      alookup toSyncD f = some (H b)) :
    (reconcile H thumb fetch (reconcile H thumb fetch st toSyncD tp).st
      toSyncD tp).deleted = 0 ∧
    (reconcile H thumb fetch (reconcile H thumb fetch st toSyncD tp).st
      toSyncD tp).fetched = 0 ∧
    (reconcile H thumb fetch (reconcile H thumb fetch st toSyncD tp).st
      toSyncD tp).aborted = false ∧
    (reconcile H thumb fetch (reconcile H thumb fetch st toSyncD tp).st
      toSyncD tp).st = (reconcile H thumb fetch st toSyncD tp).st := by
  obtain ⟨ha, hki, hkr, hval, hsha⟩ :=
    reconcile_main H thumb fetch st toSyncD tp hv hs
  generalize hgen : (reconcile H thumb fetch st toSyncD tp).st = s1 at *
  have heq1 : ∀ g, g ∈ hkeys s1.infos ↔ g ∈ hkeys s1.raw :=
    fun g => (hki g).trans (hkr g).symm
  have hro : removeOrphan s1 = s1 := removeOrphan_eq_self s1 heq1
  have hlocal : ∀ g, g ∈ (getFileInfos s1.infos).map Prod.fst ↔
      g ∈ hkeys s1.infos :=
    fun g => mem_getFileInfos_names_valid s1.infos g hval
  have hrem : toRemoveList (getFileInfos s1.infos) toSyncD = [] := by
    rw [toRemoveList, List.filter_eq_nil_iff]
    intro f hf
    simp only [decide_eq_true_eq, not_not]
    exact (hki f).mp ((hlocal f).mp hf)
  have hdl1 : (hkeys toSyncD).filter
      (fun f => decide (f ∉ (getFileInfos s1.infos).map Prod.fst)) = [] := by
    rw [List.filter_eq_nil_iff]
    intro f hf
    simp only [decide_eq_true_eq, not_not]
    exact (hlocal f).mpr ((hki f).mpr hf)
  have hmm : mismatchList (getFileInfos s1.infos) toSyncD = [] := by
    rw [mismatchList, List.filter_eq_nil_iff]
    intro f hf
    rcases List.mem_filter.mp hf with ⟨hfl, hfs⟩
    have hfs2 : f ∈ hkeys toSyncD := by simpa using hfs
    simp only [decide_eq_true_eq, not_not]
    rw [alookup_getFileInfos s1.infos f hval]
    obtain ⟨b, hb, hbne⟩ := hs f hfs2
    rcases hsha f hfs2 b hb with hcase | hcase
    · rw [hcase, hacc f hfs2 b hb]
      rfl
    · exact hcase
  have hdl : toDownloadList (getFileInfos s1.infos) toSyncD = [] := by
    rw [toDownloadList, hdl1, hmm]
    rfl
  refine ⟨?_, ?_, ?_, ?_⟩
  · rw [reconcile_eq, hro, syncWithSftp_deleted, hrem]
    rfl
  · rw [reconcile_eq, hro, syncWithSftp_fetched, hrem, hdl]
    rfl
  · rw [reconcile_eq, hro, syncWithSftp_aborted, hrem, hdl]
    rfl
  · rw [reconcile_eq, hro, syncWithSftp_st, hrem, hdl]
    rfl

/-- Witness for C5 at a concrete accurate one-file manifest. -/
theorem c5_reconcile_idempotent_witness :
    (reconcile (fun _ => "h1") (fun _ b => b) (fun _ => Except.ok [1])
      (reconcile (fun _ => "h1") (fun _ b => b) (fun _ => Except.ok [1])
        ⟨[], []⟩ [("a.png", "h1")] false).st [("a.png", "h1")] false).deleted
      = 0 ∧
    (reconcile (fun _ => "h1") (fun _ b => b) (fun _ => Except.ok [1])
      (reconcile (fun _ => "h1") (fun _ b => b) (fun _ => Except.ok [1])
        ⟨[], []⟩ [("a.png", "h1")] false).st [("a.png", "h1")] false).fetched
      = 0 ∧
    (reconcile (fun _ => "h1") (fun _ b => b) (fun _ => Except.ok [1])
      (reconcile (fun _ => "h1") (fun _ b => b) (fun _ => Except.ok [1])
        ⟨[], []⟩ [("a.png", "h1")] false).st [("a.png", "h1")] false).aborted
      = false ∧
    (reconcile (fun _ => "h1") (fun _ b => b) (fun _ => Except.ok [1])
      (reconcile (fun _ => "h1") (fun _ b => b) (fun _ => Except.ok [1])
        ⟨[], []⟩ [("a.png", "h1")] false).st [("a.png", "h1")] false).st =
      (reconcile (fun _ => "h1") (fun _ b => b) (fun _ => Except.ok [1])
        ⟨[], []⟩ [("a.png", "h1")] false).st :=
  c5_reconcile_idempotent (fun _ => "h1") (fun _ b => b)
    (fun _ => Except.ok [1]) ⟨[], []⟩ [("a.png", "h1")] false
    (fun p hp => by cases hp)
    (fun f hf => ⟨[1], rfl, by decide⟩)
    (fun f hf b hb => by
      rcases List.mem_map.mp hf with ⟨q, hq, hqf⟩
      rcases List.mem_singleton.mp hq with rfl
      have hb2 : b = [1] := Except.ok.inj hb.symm
      subst hb2
      rw [← hqf]
      rfl)

/-- C6 (code-bug evidence): in the download loop of `sync_with_sftp` a
raised fetch exception propagates (`get_file_as_bytes` raises
`FileNotFoundError` when the file is absent at fetch time; the loop has no
`try`/`except` around the fetch, only an emptiness check on the returned
bytes): with a two-file download batch whose first fetch raises, the call
aborts, the second file is never stored, and no `add_file` is performed —
the remaining batch is abandoned instead of the failing file being skipped. -/
theorem c6_fetch_error_aborts_batch :
    (reconcile (fun _ => "h0") (fun _ b => b)
      (fun f => if f = "a.png" then Except.error () else Except.ok [1])
      ⟨[], []⟩ [("a.png", "h1"), ("b.png", "h2")] false).aborted = true ∧
    alookup (reconcile (fun _ => "h0") (fun _ b => b)
      (fun f => if f = "a.png" then Except.error () else Except.ok [1])
      ⟨[], []⟩ [("a.png", "h1"), ("b.png", "h2")] false).st.raw "b.png" =
      none ∧
    alookup (reconcile (fun _ => "h0") (fun _ b => b)
      (fun f => if f = "a.png" then Except.error () else Except.ok [1])
      ⟨[], []⟩ [("a.png", "h1"), ("b.png", "h2")] false).st.infos "b.png" =
      none ∧
    (reconcile (fun _ => "h0") (fun _ b => b)
      (fun f => if f = "a.png" then Except.error () else Except.ok [1])
      ⟨[], []⟩ [("a.png", "h1"), ("b.png", "h2")] false).fetched = 0 :=
  ⟨by decide, by decide, by decide, by decide⟩

/-- C10 counterexample: `"a.png"` is already cached with hash `"hX"` while
the manifest reports `"hY"`, so it is re-downloaded; its fetch returns the
empty byte string and the download is skipped — but the name does not end
absent from the maps: the previous entry is kept, refuting "the name stays
absent from both maps" for a file whose fetch returns empty bytes. -/
theorem c10_empty_fetch_counterexample :
    ((fun _ : String => (Except.ok ([] : Bytes) : Except Unit Bytes)) "a.png"
      = Except.ok []) ∧
    alookup (reconcile (fun _ => "hX") (fun _ b => b) (fun _ => Except.ok [])
      ⟨[("a.png", some ⟨"hX", 1⟩)], [("a.png", [7])]⟩
      [("a.png", "hY")] false).st.infos "a.png" = some (some ⟨"hX", 1⟩) ∧
    alookup (reconcile (fun _ => "hX") (fun _ b => b) (fun _ => Except.ok [])
      ⟨[("a.png", some ⟨"hX", 1⟩)], [("a.png", [7])]⟩
      [("a.png", "hY")] false).st.raw "a.png" = some [7] :=
  ⟨rfl, by decide, by decide⟩

/-- C10 amended: a file whose fetch returns an empty byte string is treated
as a failed download and is never written by `add_file`; if the name was
absent from both cache hashes before the cycle it is still absent from both
after the cycle, and when it is still listed in the manifest it is again in
the download list computed by the next cycle. -/
theorem c10_empty_fetch_skipped (H : Bytes → String)
    (thumb : String → Bytes → Bytes) (fetch : String → Except Unit Bytes)
    (st : RedisState) (toSyncD : List (String × String)) (tp : Bool)
    (n : String) (hemp : fetch n = Except.ok [])
    (hi : n ∉ hkeys st.infos) (hr : n ∉ hkeys st.raw) :
    n ∉ hkeys (reconcile H thumb fetch st toSyncD tp).st.infos ∧
    n ∉ hkeys (reconcile H thumb fetch st toSyncD tp).st.raw ∧
    (n ∈ hkeys toSyncD →
      n ∈ toDownloadList (getFileInfos
        (removeOrphan (reconcile H thumb fetch st toSyncD tp).st).infos)
        toSyncD) := by
  have hroi : n ∉ hkeys (removeOrphan st).infos := fun hc =>
    hi ((removeOrphan_infos_keys st n).mp hc).1
  have hror : n ∉ hkeys (removeOrphan st).raw := fun hc =>
    hr ((removeOrphan_raw_keys st n).mp hc).1
  have h1i : n ∉ hkeys
      ((toRemoveList (getFileInfos (removeOrphan st).infos) toSyncD).foldl
        deleteFile (removeOrphan st)).infos := fun hc =>
    hroi ((foldl_deleteFile_infos_mem _ _ n).mp hc).1
  have h1r : n ∉ hkeys
      ((toRemoveList (getFileInfos (removeOrphan st).infos) toSyncD).foldl
        deleteFile (removeOrphan st)).raw := fun hc =>
    hror ((foldl_deleteFile_raw_mem _ _ n).mp hc).1
  have habs := downloadLoop_absent H thumb fetch tp
    (toDownloadList (getFileInfos (removeOrphan st).infos) toSyncD)
    ((toRemoveList (getFileInfos (removeOrphan st).infos) toSyncD).foldl
      deleteFile (removeOrphan st)) n hemp h1i h1r
  have hsti : n ∉ hkeys (reconcile H thumb fetch st toSyncD tp).st.infos := by
    rw [reconcile_eq, syncWithSftp_st]
    exact habs.1
  have hstr : n ∉ hkeys (reconcile H thumb fetch st toSyncD tp).st.raw := by
    rw [reconcile_eq, syncWithSftp_st]
    exact habs.2
  refine ⟨hsti, hstr, fun hn => ?_⟩
  refine mem_toDownloadList_left _ _ _ hn (fun hc => ?_)
  rcases (mem_getFileInfos_names _ n).mp hc with ⟨fi, hfi⟩
  exact hsti (mem_hkeys.mpr ⟨some fi, mem_removeOrphan_infos_subset hfi⟩)

/-- Witness for C10 at a concrete uncached zero-byte remote file. -/
theorem c10_empty_fetch_skipped_witness :
    "a.png" ∉ hkeys (reconcile (fun _ => "h0") (fun _ b => b)
      (fun _ => Except.ok []) ⟨[], []⟩ [("a.png", "h")] false).st.infos ∧
    "a.png" ∉ hkeys (reconcile (fun _ => "h0") (fun _ b => b)
      (fun _ => Except.ok []) ⟨[], []⟩ [("a.png", "h")] false).st.raw ∧
    ("a.png" ∈ hkeys [("a.png", "h")] →
      "a.png" ∈ toDownloadList (getFileInfos
        (removeOrphan (reconcile (fun _ => "h0") (fun _ b => b)
          (fun _ => Except.ok []) ⟨[], []⟩
          [("a.png", "h")] false).st).infos) [("a.png", "h")]) :=
  c10_empty_fetch_skipped (fun _ => "h0") (fun _ b => b)
    (fun _ => Except.ok []) ⟨[], []⟩ [("a.png", "h")] false "a.png"
    rfl (by decide) (by decide)

theorem thumbnailFit_placeholder (f : String) (w h : Nat) :
    thumbnailFit (placeholderImage f w h) w h = placeholderImage f w h := by
  have hc : (placeholderImage f w h).width ≤ w ∧
      (placeholderImage f w h).height ≤ h := ⟨Nat.le_refl w, Nat.le_refl h⟩
  simp [thumbnailFit, hc]

theorem toPngThumbnail_eq (imgDecode pdfFirstPage : Bytes → Except Unit PilImage)
    (pngEncode : PilImage → Bytes) (filename : String) (rawData : Bytes)
    (w h : Nat) :
    toPngThumbnail imgDecode pdfFirstPage pngEncode filename rawData w h =
      pngEncode (thumbnailFit
        (if endsWithStr (lowerStr filename) ".png"
            ∨ endsWithStr (lowerStr filename) ".jpg"
            ∨ endsWithStr (lowerStr filename) ".jpeg" then
          match imgDecode rawData with
          | Except.ok img => img
          | Except.error _ => placeholderImage filename w h
        else if endsWithStr (lowerStr filename) ".pdf" then
          match pdfFirstPage rawData with
          | Except.ok img => img
          | Except.error _ => placeholderImage filename w h
        else placeholderImage filename w h) w h) := rfl

/-- C7: `to_png_thumbnail` is total in the model — it always returns the PNG
encoding of some image — and on any decode failure (raster decode failure for
an image extension, first-page render failure for a PDF extension, or an
extension that matches neither) it returns the encoding of the deterministic
placeholder, unresized, of exactly the target width and height and carrying
the literal text `loading error (src: "<name>")`. -/
theorem c7_thumbnail_never_fails
    (imgDecode pdfFirstPage : Bytes → Except Unit PilImage)
    (pngEncode : PilImage → Bytes) (filename : String) (rawData : Bytes)
    (w h : Nat) :
    (∃ img, toPngThumbnail imgDecode pdfFirstPage pngEncode filename rawData
      w h = pngEncode img) ∧
    ((placeholderImage filename w h).width = w ∧
     (placeholderImage filename w h).height = h ∧
     (placeholderImage filename w h).texts =
       ["loading error (src: \"" ++ filename ++ "\")"]) ∧
    ((endsWithStr (lowerStr filename) ".png"
        ∨ endsWithStr (lowerStr filename) ".jpg"
        ∨ endsWithStr (lowerStr filename) ".jpeg") →
      imgDecode rawData = Except.error () →
      toPngThumbnail imgDecode pdfFirstPage pngEncode filename rawData w h =
        pngEncode (placeholderImage filename w h)) ∧
    (¬(endsWithStr (lowerStr filename) ".png"
        ∨ endsWithStr (lowerStr filename) ".jpg"
        ∨ endsWithStr (lowerStr filename) ".jpeg") →
      endsWithStr (lowerStr filename) ".pdf" →
      pdfFirstPage rawData = Except.error () →
      toPngThumbnail imgDecode pdfFirstPage pngEncode filename rawData w h =
        pngEncode (placeholderImage filename w h)) ∧
    (¬(endsWithStr (lowerStr filename) ".png"
        ∨ endsWithStr (lowerStr filename) ".jpg"
        ∨ endsWithStr (lowerStr filename) ".jpeg") →
      ¬(endsWithStr (lowerStr filename) ".pdf" = true) →
      toPngThumbnail imgDecode pdfFirstPage pngEncode filename rawData w h =
        pngEncode (placeholderImage filename w h)) := by
  refine ⟨⟨_, rfl⟩, ⟨rfl, rfl, rfl⟩, ?_, ?_, ?_⟩
  · intro hext hdec
    rw [toPngThumbnail_eq, if_pos hext, hdec]
    show pngEncode (thumbnailFit (placeholderImage filename w h) w h) = _
    rw [thumbnailFit_placeholder]
  · intro hnext hpdf hdec
    rw [toPngThumbnail_eq, if_neg hnext, if_pos hpdf, hdec]
    show pngEncode (thumbnailFit (placeholderImage filename w h) w h) = _
    rw [thumbnailFit_placeholder]
  · intro hnext hnpdf
    rw [toPngThumbnail_eq, if_neg hnext, if_neg hnpdf,
      thumbnailFit_placeholder]

/-- Witness for C7: a JPEG-named input whose decode fails produces exactly
the encoded placeholder of the requested 655 by 453 size. -/
theorem c7_thumbnail_never_fails_witness :
    toPngThumbnail (fun _ => Except.error ()) (fun _ => Except.error ())
      (fun i => [i.width, i.height]) "photo.jpg" [0] 655 453 =
      (fun i : PilImage => [i.width, i.height])
        (placeholderImage "photo.jpg" 655 453) ∧
    (placeholderImage "photo.jpg" 655 453).width = 655 ∧
    (placeholderImage "photo.jpg" 655 453).height = 453 ∧
    (placeholderImage "photo.jpg" 655 453).texts =
      ["loading error (src: \"" ++ "photo.jpg" ++ "\")"] := by
  have h := c7_thumbnail_never_fails (fun _ => Except.error ())
    (fun _ => Except.error ()) (fun i => [i.width, i.height]) "photo.jpg"
    [0] 655 453
  exact ⟨h.2.2.1 (by decide) rfl, h.2.1.1, h.2.1.2.1, h.2.1.2.2⟩

/-- C8: the filter of `_get_remote_sftp_files` accepts an index entry (whose
SFTP attributes are readable, reporting size `size`) iff `size` is strictly
below the maximum, the lowercased name does not end in the blocked `.txt`
extension, and the name either carries no site tag matching the bounded
pattern `_@<1-16 alnum chars>_` (absence is always accepted) or carries a tag
equal to the configured site id; and a name rejected from the filtered set is
never in the download list of a sync driven by that set. -/
theorem c8_remote_filter (attrs : String → Except Unit Nat) (maxSize : Nat)
    (siteId : String) (sftpIndex : List (String × String)) (f sha : String)
    (size : Nat) (hattrs : attrs f = Except.ok size) :
    ((f, (⟨sha, size⟩ : FileInfos)) ∈
        getRemoteSftpFiles attrs maxSize siteId sftpIndex ↔
      ((f, sha) ∈ sftpIndex ∧ size < maxSize ∧
        endsWithStr (lowerStr f) ".txt" = false ∧
        (siteTagOf f = none ∨ siteTagOf f = some siteId))) ∧
    (∀ g, g ∉ hkeys (remoteAsManifest
        (getRemoteSftpFiles attrs maxSize siteId sftpIndex)) →
      ∀ localD, g ∉ toDownloadList localD (remoteAsManifest
        (getRemoteSftpFiles attrs maxSize siteId sftpIndex))) := by
  constructor
  · constructor
    · intro hmem
      rcases List.mem_filterMap.mp hmem with ⟨p, hp, hfm⟩
      rcases p with ⟨a, b⟩
      simp only [getRemoteSftpFiles] at hfm
      split at hfm
      · cases hfm
      · rename_i sz hatt
        split at hfm
        · rename_i hcond
          have hinj := Option.some.inj hfm
          have ha : a = f := congrArg Prod.fst hinj
          have hfi : (⟨b, sz⟩ : FileInfos) = ⟨sha, size⟩ :=
            congrArg Prod.snd hinj
          have hb : b = sha := congrArg FileInfos.sha256 hfi
          have hsz : sz = size := congrArg FileInfos.size hfi
          subst ha
          subst hb
          subst hsz
          simp only [Bool.and_eq_true] at hcond
          rcases hcond with ⟨⟨hsite, hsize⟩, hext⟩
          refine ⟨hp, by simpa using hsize, by simpa using hext, ?_⟩
          rcases hst : siteTagOf a with _ | tag
          · exact Or.inl rfl
          · rw [hst] at hsite
            have htag : tag = siteId := by simpa using hsite
            exact Or.inr (by rw [htag])
        · cases hfm
    · rintro ⟨hp, hsize, hext, hsite⟩
      refine List.mem_filterMap.mpr ⟨(f, sha), hp, ?_⟩
      simp only [getRemoteSftpFiles]
      split
      · rename_i e hatt
        rw [hattrs] at hatt
        cases hatt
      · rename_i sz hatt
        rw [hattrs] at hatt
        have hsz : size = sz := Except.ok.inj hatt
        subst hsz
        have hc : ((match siteTagOf f with
            | none => true
            | some tag => decide (tag = siteId)) &&
            decide (size < maxSize) && ! endsWithStr (lowerStr f) ".txt")
            = true := by
          simp only [Bool.and_eq_true]
          refine ⟨⟨?_, by simpa using hsize⟩, by simp [hext]⟩
          rcases hsite with hnone | hsome
          · rw [hnone]
          · rw [hsome]
            simp
        rw [if_pos hc]
  · intro g hg localD hc
    exact hg (toDownloadList_subset _ _ _ hc)

/-- Witness for C8: `report_@berlin_v2.pdf` (size 5, attributes readable) is
excluded for site id `paris` and included for site id `berlin`; its parsed
tag is `berlin`, and an untagged name parses to no tag. -/
theorem c8_remote_filter_witness :
    (("report_@berlin_v2.pdf", (⟨"h", 5⟩ : FileInfos)) ∉
      getRemoteSftpFiles (fun _ => Except.ok 5) 10 "paris"
        [("report_@berlin_v2.pdf", "h")]) ∧
    (("report_@berlin_v2.pdf", (⟨"h", 5⟩ : FileInfos)) ∈
      getRemoteSftpFiles (fun _ => Except.ok 5) 10 "berlin"
        [("report_@berlin_v2.pdf", "h")]) ∧
    siteTagOf "report_@berlin_v2.pdf" = some "berlin" ∧
    siteTagOf "report.pdf" = none := by
  refine ⟨?_, ?_, by decide, by decide⟩
  · intro hmem
    have h := ((c8_remote_filter (fun _ => Except.ok 5) 10 "paris"
      [("report_@berlin_v2.pdf", "h")] "report_@berlin_v2.pdf" "h" 5
      rfl).1).mp hmem
    have htag : siteTagOf "report_@berlin_v2.pdf" = some "berlin" := by decide
    rcases h.2.2.2 with hnone | hsome
    · rw [htag] at hnone
      cases hnone
    · rw [htag] at hsome
      exact absurd (Option.some.inj hsome) (by decide)
  · exact ((c8_remote_filter (fun _ => Except.ok 5) 10 "berlin"
      [("report_@berlin_v2.pdf", "h")] "report_@berlin_v2.pdf" "h" 5
      rfl).1).mpr ⟨by decide, by decide, by decide, Or.inr (by decide)⟩

/-- C9: `TrySync.run` invokes the sync function iff the index modification
time is strictly greater than the stored watermark; it advances the
watermark to that modification time only when the sync function returns; a
sync function that raises leaves the watermark unchanged (the exception
propagates, `raised = true`) so a next tick with the same modification time
runs the sync again; when the gate does not fire, nothing changes; and from
the initial far-in-the-past watermark any later modification time fires the
first sync. -/
theorem c9_try_sync_gate (st : TrySyncState) (mtime : Int)
    (r : Except Unit Unit) :
    ((trySyncRun st mtime r).ran = true ↔ st.lastSyncDt < mtime) ∧
    (st.lastSyncDt < mtime →
      (trySyncRun st mtime (Except.ok ())).state.lastSyncDt = mtime) ∧
    (st.lastSyncDt < mtime →
      (trySyncRun st mtime (Except.error ())).state = st ∧
      (trySyncRun st mtime (Except.error ())).raised = true ∧
      (trySyncRun (trySyncRun st mtime (Except.error ())).state mtime
        r).ran = true) ∧
    (¬ st.lastSyncDt < mtime →
      (trySyncRun st mtime r).state = st ∧
      (trySyncRun st mtime r).ran = false ∧
      (trySyncRun st mtime r).raised = false) ∧
    (initLastSyncDt < mtime →
      (trySyncRun trySyncInit mtime r).ran = true) := by
  refine ⟨?_, ?_, ?_, ?_, ?_⟩
  · by_cases h : st.lastSyncDt < mtime
    · cases r <;> simp [trySyncRun, h]
    · cases r <;> simp [trySyncRun, h]
  · intro h
    simp [trySyncRun, h]
  · intro h
    refine ⟨by simp [trySyncRun, h], by simp [trySyncRun, h], ?_⟩
    have hs : (trySyncRun st mtime (Except.error ())).state = st := by
      simp [trySyncRun, h]
    rw [hs]
    cases r <;> simp [trySyncRun, h]
  · intro h
    cases r <;> simp [trySyncRun, h]
  · intro h
    have h2 : trySyncInit.lastSyncDt < mtime := h
    cases r <;> simp [trySyncRun, h2]

/-- Witness for C9 at a concrete watermark 0 and index mtime 5: the gate
fires, a returning sync advances the watermark to 5, a raising sync leaves
it at 0 and the retry fires again, and an mtime of 0 does not fire. -/
theorem c9_try_sync_gate_witness :
    ((trySyncRun ⟨0⟩ 5 (Except.ok ())).ran = true ↔ (0 : Int) < 5) ∧
    (trySyncRun ⟨0⟩ 5 (Except.ok ())).state.lastSyncDt = 5 ∧
    (trySyncRun ⟨0⟩ 5 (Except.error ())).state = ⟨0⟩ ∧
    (trySyncRun ⟨0⟩ 5 (Except.error ())).raised = true ∧
    (trySyncRun (trySyncRun ⟨0⟩ 5 (Except.error ())).state 5
      (Except.ok ())).ran = true ∧
    (trySyncRun ⟨5⟩ 5 (Except.ok ())).ran = false :=
  ⟨(c9_try_sync_gate ⟨0⟩ 5 (Except.ok ())).1,
   (c9_try_sync_gate ⟨0⟩ 5 (Except.ok ())).2.1 (by decide),
   ((c9_try_sync_gate ⟨0⟩ 5 (Except.ok ())).2.2.1 (by decide)).1,
   ((c9_try_sync_gate ⟨0⟩ 5 (Except.ok ())).2.2.1 (by decide)).2.1,
   ((c9_try_sync_gate ⟨0⟩ 5 (Except.ok ())).2.2.1 (by decide)).2.2,
   ((c9_try_sync_gate ⟨5⟩ 5 (Except.ok ())).2.2.2.1 (by decide)).2.1⟩
